import Mathlib

/-!
Verification development for the `getrx` state-management library.

The repository has two cores:

* `GetRxCache` / `Get` (src/cache.ts, src/src/cache.ts): a process-wide,
  string-keyed registry of controller instances with `find`, `put`,
  `delete` and `exists`, lifecycle hooks (`onInit` / `onClose`) dispatched
  fire-and-forget through `callMaybeAsync`, and key validation in
  `makeKey`.
* `Obs` (the reactive cell): one current value plus an insertion-ordered
  array of listeners, with synchronous broadcast on `set`, replay on `on`,
  and identity-based removal in `off`.

The hook `useGet` (the ref-counting variant in the hooks file) binds the
two: a module-level `refCounts` map counts mounted consumers per tag and
evicts the controller from the cache when the count returns to zero,
unless the releasing binding asked to persist.

Everything below is a shallow embedding of that source.  JavaScript `Map`s
become association lists with unique keys (`alGet` / `alSet` / `alDelete`),
JS values passed as keys become `JsVal`, object identity becomes a `Nat`
id drawn from a counter, and the observable effects of a possibly-async
lifecycle hook become `HookEffects`.
-/

deriving instance DecidableEq for Except

/-- A JavaScript value supplied as a cache tag.  `makeKey` receives whatever
the caller passes at runtime, so the embedding keeps the non-string cases. -/
inductive JsVal where
  | jsStr (s : String)
  | jsNum (n : Int)
  | jsBool (b : Bool)
  | jsNull
  | jsUndef
deriving DecidableEq, Repr

/-- JS truthiness of a `JsVal`: `""`, `0`, `false`, `null` and `undefined`
are falsy, everything else here is truthy. -/
def jsTruthy : JsVal → Bool
  | .jsStr s => decide (s ≠ "")
  | .jsNum n => decide (n ≠ 0)
  | .jsBool b => b
  | .jsNull => false
  | .jsUndef => false

/-- The `typeof tag === "string"` test. -/
def jsIsString : JsVal → Bool
  | .jsStr _ => true
  | _ => false

/-- The only synchronous failure of the registry layer: the `Error` thrown
by `GetRxCache.makeKey` for an empty or non-string tag. -/
inductive CacheError where
  | invalidKey (msg : String)
deriving DecidableEq, Repr

/-- The message of the `Error` thrown by `makeKey`. -/
def invalidKeyMsg : String := "A non-empty string tag is required for GetRxCache."

/-- `GetRxCache.makeKey`: `if (!tag || typeof tag !== "string") throw ...;
return tag;`.  The second `match` is the string extraction; its catch-all
branch is unreachable because `jsIsString` already held. -/
def makeKey (tag : JsVal) : Except CacheError String :=
  if !jsTruthy tag || !jsIsString tag then
    .error (.invalidKey invalidKeyMsg)
  else
    match tag with
    | .jsStr s => .ok s
    | _ => .error (.invalidKey invalidKeyMsg)

/-- Behaviour of one lifecycle hook (`onInit` / `onClose`) when called:
it may return normally, return a promise that rejects, or throw before
returning a promise. -/
inductive HookSpec where
  | ok
  | rejects
  | throwsSync
deriving DecidableEq, Repr

/-- Observable effects of `callMaybeAsync` on one hook: whether the hook
function was called, whether its failure reached `console.error`, and
whether it ended as a rejection of `callMaybeAsync`'s own (never awaited)
promise. -/
structure HookEffects where
  invoked : Bool
  logged : Bool
  unhandled : Bool
deriving DecidableEq, Repr

/-- Effects when no hook runs. -/
def noEffects : HookEffects := ⟨false, false, false⟩

/-- `GetRxCache.callMaybeAsync`: an `async` private helper invoked without
`await` by `put` and `delete`.  If the hook is absent nothing happens.  If
it returns a rejecting promise, `await result.catch(console.error)` logs
the failure.  If it throws synchronously, the `async` wrapper turns the
throw into a rejection of `callMaybeAsync`'s own promise, which no caller
awaits — so the failure is neither logged by this code nor thrown to the
caller of `put` / `delete`. -/
def callMaybeAsync : Option HookSpec → HookEffects
  | none => noEffects
  | some .ok => ⟨true, false, false⟩
  | some .rejects => ⟨true, true, false⟩
  | some .throwsSync => ⟨true, false, true⟩

/-- A cached controller instance.  `id` is the object identity (allocated
from `CacheState.nextId`, so two distinct constructions never share it) and
the two fields record which lifecycle hooks the instance carries and how
each behaves when called. -/
structure Controller where
  id : Nat
  onInit : Option HookSpec
  onClose : Option HookSpec
deriving DecidableEq, Repr

/-- What a `GetRxControllerFactory` builds: the hooks of the instance it
returns.  Each invocation of the factory yields a fresh object identity. -/
structure FactorySpec where
  onInit : Option HookSpec
  onClose : Option HookSpec
deriving DecidableEq, Repr

/-- Lookup in an association list, mirroring `Map.get` (JS `Map` keys are
unique, so first match is the match). -/
def alGet {β : Type} : List (String × β) → String → Option β
  | [], _ => none
  | (k, v) :: rest, key => if k = key then some v else alGet rest key

/-- `Map.set`: replace the value of an existing key in place (insertion
order preserved) or append a new binding. -/
def alSet {β : Type} : List (String × β) → String → β → List (String × β)
  | [], key, v => [(key, v)]
  | (k, w) :: rest, key, v =>
    if k = key then (key, v) :: rest else (k, w) :: alSet rest key v

/-- `Map.delete`: remove the key's binding.  JS `Map` keys are unique, so
removal is modelled as filtering the key out. -/
def alDelete {β : Type} : List (String × β) → String → List (String × β)
  | [], _ => []
  | (k, w) :: rest, key =>
    if k = key then alDelete rest key else (k, w) :: alDelete rest key

/-- The registry singleton's mutable state: the backing `Map` plus the
counter that hands out fresh object identities to factory results. -/
structure CacheState where
  registry : List (String × Controller)
  nextId : Nat
deriving DecidableEq, Repr

/-- The state of the module before any controller is cached. -/
def cacheInit : CacheState := ⟨[], 0⟩

namespace GetRxCache

/-- `GetRxCache.find`: validate the tag, then a pure `Map.get`. -/
def find (tag : JsVal) (st : CacheState) : Except CacheError (Option Controller) :=
  match makeKey tag with
  | .error e => .error e
  | .ok key => .ok (alGet st.registry key)

/-- Everything `put` returns and observably does: the controller handed
back, the registry state afterwards, whether the factory ran, and the
effects of the `onInit` dispatch. -/
structure PutResult where
  ctrl : Controller
  state : CacheState
  created : Bool
  hookFx : HookEffects
deriving DecidableEq, Repr

/-- `GetRxCache.put`: validate the tag; if an entry is present return it
unchanged (controller instances are objects, hence truthy, so the
`if (existing)` test is presence); otherwise call the factory once, store
the fresh instance, dispatch `onInit` through `callMaybeAsync` without
awaiting it, and return the instance. -/
def put (tag : JsVal) (f : FactorySpec) (st : CacheState) : Except CacheError PutResult :=
  match makeKey tag with
  | .error e => .error e
  | .ok key =>
    match alGet st.registry key with
    | some existing => .ok ⟨existing, st, false, noEffects⟩
    | none =>
      let inst : Controller := ⟨st.nextId, f.onInit, f.onClose⟩
      .ok ⟨inst, ⟨alSet st.registry key inst, st.nextId + 1⟩, true, callMaybeAsync inst.onInit⟩

/-- `GetRxCache.delete`: validate the tag; if an entry is present dispatch
its `onClose` through `callMaybeAsync` (not awaited) and remove the entry
from the `Map` immediately; on a missing key do nothing. -/
def delete (tag : JsVal) (st : CacheState) : Except CacheError (CacheState × HookEffects) :=
  match makeKey tag with
  | .error e => .error e
  | .ok key =>
    match alGet st.registry key with
    | some cached => .ok (⟨alDelete st.registry key, st.nextId⟩, callMaybeAsync cached.onClose)
    | none => .ok (st, noEffects)

/-- `Get.exists`: validate the tag, then `registry.has(key)`. -/
def existsTag (tag : JsVal) (st : CacheState) : Except CacheError Bool :=
  match makeKey tag with
  | .error e => .error e
  | .ok key => .ok (alGet st.registry key).isSome

end GetRxCache

/-- Is an `Except` a success?  (`Except.isOk` spelled out so concrete
results evaluate by `decide`.) -/
def isOkE {α : Type} : Except CacheError α → Bool
  | .ok _ => true
  | .error _ => false

/-!
The `useGet` hook of the hooks file (the ref-counting variant): a
module-level `refCounts : Map<string, number>` counts mounted consumers of
each tag.  One mounted component contributes one *binding*: on mount it
acquires the controller (`Get.exists` / `Get.find` / `Get.put`) and
increments the count; on unmount it decrements, and when the count reaches
zero it drops the counter and — unless that binding opted into
`persist: true` — calls `Get.delete`.  Counts are JS numbers, embedded as
`Int`.
-/

/-- The combined state the hook layer manipulates: the controller cache
plus the module-level `refCounts` map. -/
structure BindState where
  cache : CacheState
  refCounts : List (String × Int)
deriving DecidableEq, Repr

/-- Fresh module state: empty cache, empty `refCounts`. -/
def bindInit : BindState := ⟨cacheInit, []⟩

/-- The live-reference count the hook layer holds for a key
(`refCounts.get(tag) ?? 0`). -/
def liveCount (st : BindState) (key : String) : Int :=
  (alGet st.refCounts key).getD 0

namespace ConsumerBinding

open GetRxCache in
/-- One component mounting with `useGet(tag, factory)`: the render-time
`useMemo` acquires the controller — `Get.exists(tag) ? Get.find(tag)
: Get.put(tag, factory)` — and the mount effect runs
`refCounts.set(tag, (refCounts.get(tag) ?? 0) + 1)`. -/
def bind (tag : JsVal) (f : FactorySpec) (st : BindState) : Except CacheError BindState :=
  match existsTag tag st.cache with
  | .error e => .error e
  | .ok ex =>
    let cacheRes : Except CacheError CacheState :=
      if ex then
        match find tag st.cache with
        | .error e => .error e
        | .ok _ => .ok st.cache
      else
        match put tag f st.cache with
        | .error e => .error e
        | .ok r => .ok r.state
    match cacheRes with
    | .error e => .error e
    | .ok cache1 =>
      match makeKey tag with
      | .error e => .error e
      | .ok key =>
        .ok ⟨cache1, alSet st.refCounts key (((alGet st.refCounts key).getD 0) + 1)⟩

open GetRxCache in
/-- That component unmounting: the cleanup runs
`const current = (refCounts.get(tag) ?? 1) - 1`; if `current <= 0` it
drops the counter and, when the binding did not ask to persist, evicts via
`Get.delete(tag)`; otherwise it stores the decremented count. -/
def release (tag : JsVal) (persist : Bool) (st : BindState) : Except CacheError BindState :=
  match makeKey tag with
  | .error e => .error e
  | .ok key =>
    let current : Int := ((alGet st.refCounts key).getD 1) - 1
    if current ≤ 0 then
      let rc := alDelete st.refCounts key
      if persist then
        .ok ⟨st.cache, rc⟩
      else
        match delete tag st.cache with
        | .error e => .error e
        | .ok (c1, _) => .ok ⟨c1, rc⟩
    else
      .ok ⟨st.cache, alSet st.refCounts key current⟩

end ConsumerBinding

/-- One event at the hook layer on a fixed key: a component mounts, or a
component whose binding carried the given persist flag unmounts. -/
inductive BOp where
  | bindOp : BOp
  | releaseOp : Bool → BOp
deriving DecidableEq, Repr

/-- Dispatch one event. -/
def stepOp (tag : JsVal) (f : FactorySpec) (op : BOp) (st : BindState) :
    Except CacheError BindState :=
  match op with
  | .bindOp => ConsumerBinding.bind tag f st
  | .releaseOp p => ConsumerBinding.release tag p st

/-- Run a sequence of mount / unmount events on one key, left to right. -/
def runOps (tag : JsVal) (f : FactorySpec) : List BOp → BindState → Except CacheError BindState
  | [], st => .ok st
  | op :: rest, st =>
    match stepOp tag f op st with
    | .error e => .error e
    | .ok st1 => runOps tag f rest st1

/-!
The reactive cell `Obs<T>`.  Its state is the field
`eventHandlers: ObsListener<T>[]` plus `currentValue: T | undefined`.

The embedding keeps JS array *object identity* because the broadcast in
`set` relies on it: `set` runs `this.eventHandlers.forEach(...)` on the
array object the field holds when the broadcast begins, `on` pushes onto
whichever array object the field currently holds (in place), and `off`
*replaces* the field with a freshly filtered array, leaving the old object
untouched.  So the heap is a list of array objects (`arrays`, index =
identity), and `hRef` is the `eventHandlers` field.  `forEach` fixes its
range before the first call, so it visits exactly the first `n` slots of
the array object it was called on, where `n` is that object's length at
broadcast start, reading each slot at visit time.

Listeners are an abstract type `L` (identity matters, `off` filters by
`!==`); broadcast values are `JsV V`, since a `T` admitting `undefined`
shares the slot `currentValue : T | undefined` with the absent state.
-/

/-- The current-value slot of a cell: JS `undefined` or a proper value. -/
inductive JsV (V : Type) where
  | undef
  | val (v : V)
deriving DecidableEq, Repr

/-- Read array object `r` from the heap. -/
def heapGet {L : Type} (arrays : List (List L)) (r : Nat) : List L :=
  arrays.getD r []

/-- The state of one `Obs` cell. -/
structure ObsState (L V : Type) where
  arrays : List (List L)
  hRef : Nat
  current : JsV V
deriving DecidableEq, Repr

/-- The listener list the `eventHandlers` field currently designates. -/
def handlersOf {L V : Type} (st : ObsState L V) : List L :=
  heapGet st.arrays st.hRef

namespace Obs

/-- `Obs.on`: push the listener onto the current array object (in place),
then — replay-on-subscribe — call it immediately with the current value
if that value is not `undefined`.  Returns the new state and the list of
replay invocations (listener, value) made before `on` returns. -/
def onSub {L V : Type} (l : L) (st : ObsState L V) : ObsState L V × List (L × JsV V) :=
  let st1 : ObsState L V :=
    { st with arrays := st.arrays.set st.hRef (handlersOf st ++ [l]) }
  (st1,
    match st.current with
    | .val v => [(l, JsV.val v)]
    | .undef => [])

/-- `Obs.off`: `this.eventHandlers = this.eventHandlers.filter(x => x !==
listener)` — a fresh array object replaces the field; every occurrence of
the listener is dropped; the old array object is not mutated. -/
def off {L V : Type} [DecidableEq L] (l : L) (st : ObsState L V) : ObsState L V :=
  let filtered := (handlersOf st).filter fun x => decide (x ≠ l)
  { st with arrays := st.arrays ++ [filtered], hRef := st.arrays.length }

/-- A subscription change a listener performs while it is being invoked
during a broadcast: it may subscribe or unsubscribe a listener. -/
inductive BAction (L : Type) where
  | actOn (l : L)
  | actOff (l : L)

/-- Apply one mid-broadcast subscription change.  (A mid-broadcast `on`
also replays the just-written value to the new listener; that call is an
`on` invocation, not part of the broadcast's own `forEach`, and it leaves
the state untouched, so only the state component is kept here.) -/
def applyAction {L V : Type} [DecidableEq L] (st : ObsState L V) : BAction L → ObsState L V
  | .actOn l => (onSub l st).1
  | .actOff l => off l st

/-- Apply a listener's mid-broadcast changes in order. -/
def applyActions {L V : Type} [DecidableEq L] (acts : List (BAction L)) (st : ObsState L V) :
    ObsState L V :=
  acts.foldl applyAction st

/-- The `forEach` of `Obs.set`, iterating over array object `A`: `fuel`
slots remain, `i` is the next index.  Each visited slot is read from the
heap at visit time; the visited listener's reactions (`react l`) then
mutate the state before the next slot.  Returns the final state and the
listeners the broadcast itself invoked, in order. -/
def broadcastLoop {L V : Type} [DecidableEq L] [Inhabited L]
    (react : L → List (BAction L)) (A : Nat) :
    Nat → Nat → ObsState L V → ObsState L V × List L
  | 0, _, st => (st, [])
  | fuel + 1, i, st =>
    let l := (heapGet st.arrays A).getD i default
    let st1 := applyActions (react l) st
    let res := broadcastLoop react A fuel (i + 1) st1
    (res.1, l :: res.2)

/-- `Obs.set`: store the value, then `this.eventHandlers.forEach(listener
=> listener(value))` — the range is the length, at broadcast start, of the
array object the field holds at broadcast start.  Every invoked listener
receives the one value `v`; the returned list is who the broadcast
invoked, in order. -/
def set {L V : Type} [DecidableEq L] [Inhabited L]
    (v : JsV V) (react : L → List (BAction L)) (st : ObsState L V) :
    ObsState L V × List L :=
  let st0 : ObsState L V := { st with current := v }
  broadcastLoop react st0.hRef (handlersOf st0).length 0 st0

end Obs

/-- Reactions of listeners that change no subscriptions (an ordinary
broadcast with no reentrant `on` / `off`). -/
def noReact {L : Type} : L → List (Obs.BAction L) := fun _ => []

/-- The values a given listener receives from one broadcast whose invoked
listeners are `invoked` and whose written value is `v`: one call with `v`
per occurrence of the listener in the invoked list. -/
def deliveredTo {L V : Type} [DecidableEq L] (l : L) (invoked : List L) (v : V) : List V :=
  ((invoked.filter fun x => decide (x = l)).map fun _ => v)

/-!  Helper lemmas about the association-list embedding of JS `Map`. -/

theorem makeKey_str {s : String} (hs : s ≠ "") : makeKey (JsVal.jsStr s) = .ok s := by
  simp [makeKey, jsTruthy, jsIsString, hs]

theorem alGet_alSet_self {β : Type} (m : List (String × β)) (k : String) (v : β) :
    alGet (alSet m k v) k = some v := by
  induction m with
  | nil => simp [alGet, alSet]
  | cons p rest ih =>
    obtain ⟨k1, w⟩ := p
    by_cases h : k1 = k <;> simp [alGet, alSet, h, ih]

theorem alGet_alDelete_self {β : Type} (m : List (String × β)) (k : String) :
    alGet (alDelete m k) k = none := by
  induction m with
  | nil => simp [alGet, alDelete]
  | cons p rest ih =>
    obtain ⟨k1, w⟩ := p
    by_cases h : k1 = k <;> simp [alGet, alDelete, h, ih]

/-!  C1 — create-or-reuse: one factory invocation, identical entry. -/

/-- C1: for a valid key `k` with no entry present, `put(k, f)` invokes the
factory exactly once (first call creates, second call does not), stores
the factory's result under `k`, returns it, and a second `put(k, f)` while
the entry is present returns the identical entry — same object identity —
leaving the registry unchanged. -/
theorem put_twice_single_construction (s : String) (hs : s ≠ "") (f : FactorySpec)
    (st : CacheState) (habsent : alGet st.registry s = none) :
    ∃ r1 r2 : GetRxCache.PutResult,
      GetRxCache.put (JsVal.jsStr s) f st = .ok r1 ∧
      GetRxCache.put (JsVal.jsStr s) f r1.state = .ok r2 ∧
      r1.created = true ∧
      r1.ctrl = ⟨st.nextId, f.onInit, f.onClose⟩ ∧
      alGet r1.state.registry s = some r1.ctrl ∧
      r2.created = false ∧
      r2.ctrl = r1.ctrl ∧
      r2.state = r1.state := by
  refine ⟨⟨⟨st.nextId, f.onInit, f.onClose⟩,
           ⟨alSet st.registry s ⟨st.nextId, f.onInit, f.onClose⟩, st.nextId + 1⟩,
           true, callMaybeAsync f.onInit⟩,
          ⟨⟨st.nextId, f.onInit, f.onClose⟩,
           ⟨alSet st.registry s ⟨st.nextId, f.onInit, f.onClose⟩, st.nextId + 1⟩,
           false, noEffects⟩,
          ?_, ?_, rfl, rfl, ?_, rfl, rfl, rfl⟩
  · simp [GetRxCache.put, makeKey_str hs, habsent]
  · simp [GetRxCache.put, makeKey_str hs, alGet_alSet_self]
  · exact alGet_alSet_self _ _ _

/-- Witness for C1 at the concrete key `"x"`, a hook-free factory and the
empty registry. -/
theorem put_twice_single_construction_witness :
    ∃ r1 r2 : GetRxCache.PutResult,
      GetRxCache.put (JsVal.jsStr "x") ⟨none, none⟩ cacheInit = .ok r1 ∧
      GetRxCache.put (JsVal.jsStr "x") ⟨none, none⟩ r1.state = .ok r2 ∧
      r1.created = true ∧
      r1.ctrl = ⟨0, none, none⟩ ∧
      alGet r1.state.registry "x" = some r1.ctrl ∧
      r2.created = false ∧
      r2.ctrl = r1.ctrl ∧
      r2.state = r1.state :=
  put_twice_single_construction "x" (by decide) ⟨none, none⟩ cacheInit (by decide)

/-!  C8 — delete evicts immediately; delete on a missing key is a no-op. -/

/-- C8: for a valid key with an entry present, `delete` succeeds, invokes
the entry's `onClose` hook (when it has one) via `callMaybeAsync` and
removes the entry from storage without awaiting the hook, so `find`
afterwards returns absent; on a key with no entry, `delete` succeeds and
changes nothing. -/
theorem delete_removes_and_missing_noop (s : String) (hs : s ≠ "") (st : CacheState) :
    (∀ c : Controller, alGet st.registry s = some c →
      ∃ st2 fx,
        GetRxCache.delete (JsVal.jsStr s) st = .ok (st2, fx) ∧
        alGet st2.registry s = none ∧
        GetRxCache.find (JsVal.jsStr s) st2 = .ok none ∧
        fx = callMaybeAsync c.onClose ∧
        (c.onClose.isSome = true → fx.invoked = true)) ∧
    (alGet st.registry s = none →
      GetRxCache.delete (JsVal.jsStr s) st = .ok (st, noEffects)) := by
  constructor
  · intro c hc
    refine ⟨⟨alDelete st.registry s, st.nextId⟩, callMaybeAsync c.onClose, ?_, ?_, ?_, rfl, ?_⟩
    · simp [GetRxCache.delete, makeKey_str hs, hc]
    · exact alGet_alDelete_self _ _
    · simp [GetRxCache.find, makeKey_str hs, alGet_alDelete_self]
    · intro hsome
      cases h : c.onClose with
      | none => simp [h] at hsome
      | some hk => cases hk <;> simp [callMaybeAsync, h]
  · intro hc
    simp [GetRxCache.delete, makeKey_str hs, hc]

/-- Witness for C8: the key `"x"` with an entry whose `onClose` returns
normally, and the same key on the empty registry. -/
theorem delete_removes_and_missing_noop_witness :
    (∃ st2 fx,
      GetRxCache.delete (JsVal.jsStr "x") ⟨[("x", ⟨0, none, some HookSpec.ok⟩)], 1⟩ =
        .ok (st2, fx) ∧
      alGet st2.registry "x" = none ∧
      GetRxCache.find (JsVal.jsStr "x") st2 = .ok none ∧
      fx = callMaybeAsync (some HookSpec.ok) ∧
      ((some HookSpec.ok).isSome = true → fx.invoked = true)) ∧
    GetRxCache.delete (JsVal.jsStr "x") cacheInit = .ok (cacheInit, noEffects) := by
  constructor
  · exact (delete_removes_and_missing_noop "x" (by decide)
      ⟨[("x", ⟨0, none, some HookSpec.ok⟩)], 1⟩).1 ⟨0, none, some HookSpec.ok⟩ (by decide)
  · exact (delete_removes_and_missing_noop "x" (by decide) cacheInit).2 (by decide)

/-!  C9 — key validation. -/

/-- C9: supplying an empty string or a non-string key to any registry
operation fails immediately and synchronously with the `InvalidKey` error
thrown by `makeKey`, and on every non-empty string key no operation fails
(the error channel carries only `InvalidKey`, so success is exactly the
absence of that error). -/
theorem invalid_key_rejected (tag : JsVal) (f : FactorySpec) (st : CacheState) :
    (¬ (∃ s : String, tag = JsVal.jsStr s ∧ s ≠ "") →
      GetRxCache.find tag st = .error (CacheError.invalidKey invalidKeyMsg) ∧
      GetRxCache.put tag f st = .error (CacheError.invalidKey invalidKeyMsg) ∧
      GetRxCache.delete tag st = .error (CacheError.invalidKey invalidKeyMsg) ∧
      GetRxCache.existsTag tag st = .error (CacheError.invalidKey invalidKeyMsg)) ∧
    (∀ s : String, tag = JsVal.jsStr s → s ≠ "" →
      isOkE (GetRxCache.find tag st) = true ∧
      isOkE (GetRxCache.put tag f st) = true ∧
      isOkE (GetRxCache.delete tag st) = true ∧
      isOkE (GetRxCache.existsTag tag st) = true) := by
  constructor
  · intro hninv
    have hmk : makeKey tag = .error (CacheError.invalidKey invalidKeyMsg) := by
      cases tag with
      | jsStr s =>
        by_cases hse : s = ""
        · simp [makeKey, jsTruthy, jsIsString, hse]
        · exact absurd ⟨s, rfl, hse⟩ hninv
      | jsNum n => simp [makeKey, jsIsString]
      | jsBool b => simp [makeKey, jsIsString]
      | jsNull => simp [makeKey, jsIsString]
      | jsUndef => simp [makeKey, jsIsString]
    exact ⟨by simp [GetRxCache.find, hmk], by simp [GetRxCache.put, hmk],
           by simp [GetRxCache.delete, hmk], by simp [GetRxCache.existsTag, hmk]⟩
  · intro s hseq hsne
    subst hseq
    have hk := makeKey_str hsne
    refine ⟨?_, ?_, ?_, ?_⟩
    · simp [GetRxCache.find, hk, isOkE]
    · cases halg : alGet st.registry s <;> simp [GetRxCache.put, hk, halg, isOkE]
    · cases halg : alGet st.registry s <;> simp [GetRxCache.delete, hk, halg, isOkE]
    · simp [GetRxCache.existsTag, hk, isOkE]

/-- Witness for C9: the empty string and `undefined` are rejected by every
operation, while the non-empty key `"x"` is accepted by every operation,
all at the empty registry. -/
theorem invalid_key_rejected_witness :
    GetRxCache.find (JsVal.jsStr "") cacheInit = .error (CacheError.invalidKey invalidKeyMsg) ∧
    GetRxCache.put JsVal.jsUndef ⟨none, none⟩ cacheInit =
      .error (CacheError.invalidKey invalidKeyMsg) ∧
    isOkE (GetRxCache.delete (JsVal.jsStr "x") cacheInit) = true ∧
    isOkE (GetRxCache.existsTag (JsVal.jsStr "x") cacheInit) = true := by
  have hempty := (invalid_key_rejected (JsVal.jsStr "") ⟨none, none⟩ cacheInit).1
    (by rintro ⟨s, hseq, hsne⟩; injection hseq with h; exact hsne h.symm)
  have hundef := (invalid_key_rejected JsVal.jsUndef ⟨none, none⟩ cacheInit).1
    (by rintro ⟨s, hseq, -⟩; cases hseq)
  have hgood := (invalid_key_rejected (JsVal.jsStr "x") ⟨none, none⟩ cacheInit).2
    "x" rfl (by decide)
  exact ⟨hempty.1, hundef.2.1, hgood.2.2.1, hgood.2.2.2⟩

/-!
C4 — lifecycle-hook failure isolation.

The claim says every `onInit` / `onClose` failure is "caught and reported
(e.g. logged)" and never propagated.  The second half is exact: no hook
behaviour ever reaches the caller of `put` / `delete`, `put` returns the
new entry synchronously, and `delete` removes the entry.  The first half
fails for a hook that throws *synchronously* (a plain, non-`async` hook
that throws before returning a promise): inside the `async`
`callMaybeAsync` the throw becomes a rejection of `callMaybeAsync`'s own
promise, which `put` / `delete` never await and never `.catch` — so
`console.error` is never given that failure.  Only a hook whose returned
promise rejects (which is what an `async` hook that throws produces) is
logged by `await result.catch(console.error)`.
-/

/-- C4 counterexample: a synchronously-throwing `onInit` on a fresh key.
`put` still succeeds, stores and returns the entry (`created`, registry),
and the hook runs (`invoked = true`) — but its failure is never reported:
`logged = false`; it survives only as an unhandled rejection of the
wrapper's promise (`unhandled = true`), contradicting "the failure is
caught and reported (e.g. logged)". -/
theorem syncthrow_hook_not_logged_cex :
    GetRxCache.put (JsVal.jsStr "x") ⟨some HookSpec.throwsSync, none⟩ cacheInit =
      .ok ⟨⟨0, some HookSpec.throwsSync, none⟩,
           ⟨[("x", ⟨0, some HookSpec.throwsSync, none⟩)], 1⟩,
           true, ⟨true, false, true⟩⟩ := by decide

/-- C4 as amended: for every behaviour of the `onInit` and `onClose` hooks
(normal return, rejecting promise, synchronous throw), `put` on a fresh
valid key succeeds and returns the new stored entry without the hook's
failure reaching it, and `delete` then succeeds and removes the entry;
a hook whose promise rejects is caught and logged via
`console.error`, while a synchronously-throwing hook is not logged — it
ends as an unhandled rejection of `callMaybeAsync`'s promise — yet still
never propagates to the caller. -/
theorem hook_failures_isolated (s : String) (hs : s ≠ "") (hI hC : HookSpec)
    (st : CacheState) (habsent : alGet st.registry s = none) :
    ∃ r : GetRxCache.PutResult,
      GetRxCache.put (JsVal.jsStr s) ⟨some hI, some hC⟩ st = .ok r ∧
      r.created = true ∧
      alGet r.state.registry s = some r.ctrl ∧
      r.hookFx.invoked = true ∧
      (hI = HookSpec.rejects → r.hookFx.logged = true) ∧
      (hI = HookSpec.throwsSync → r.hookFx.logged = false ∧ r.hookFx.unhandled = true) ∧
      ∃ st2 fx,
        GetRxCache.delete (JsVal.jsStr s) r.state = .ok (st2, fx) ∧
        alGet st2.registry s = none ∧
        fx.invoked = true ∧
        (hC = HookSpec.rejects → fx.logged = true) ∧
        (hC = HookSpec.throwsSync → fx.logged = false ∧ fx.unhandled = true) := by
  refine ⟨⟨⟨st.nextId, some hI, some hC⟩,
           ⟨alSet st.registry s ⟨st.nextId, some hI, some hC⟩, st.nextId + 1⟩,
           true, callMaybeAsync (some hI)⟩, ?_, rfl, ?_, ?_, ?_, ?_, ?_⟩
  · simp [GetRxCache.put, makeKey_str hs, habsent]
  · exact alGet_alSet_self _ _ _
  · cases hI <;> simp [callMaybeAsync]
  · intro h; subst h; simp [callMaybeAsync]
  · intro h; subst h; simp [callMaybeAsync]
  · refine ⟨⟨alDelete (alSet st.registry s ⟨st.nextId, some hI, some hC⟩) s, st.nextId + 1⟩,
            callMaybeAsync (some hC), ?_, ?_, ?_, ?_, ?_⟩
    · simp [GetRxCache.delete, makeKey_str hs, alGet_alSet_self]
    · exact alGet_alDelete_self _ _
    · cases hC <;> simp [callMaybeAsync]
    · intro h; subst h; simp [callMaybeAsync]
    · intro h; subst h; simp [callMaybeAsync]

/-- Witness for the amended C4 at key `"x"`, both hooks rejecting, on the
empty registry. -/
theorem hook_failures_isolated_witness :
    ∃ r : GetRxCache.PutResult,
      GetRxCache.put (JsVal.jsStr "x") ⟨some HookSpec.rejects, some HookSpec.rejects⟩ cacheInit =
        .ok r ∧
      r.created = true ∧
      alGet r.state.registry "x" = some r.ctrl ∧
      r.hookFx.invoked = true ∧
      (HookSpec.rejects = HookSpec.rejects → r.hookFx.logged = true) ∧
      (HookSpec.rejects = HookSpec.throwsSync →
        r.hookFx.logged = false ∧ r.hookFx.unhandled = true) ∧
      ∃ st2 fx,
        GetRxCache.delete (JsVal.jsStr "x") r.state = .ok (st2, fx) ∧
        alGet st2.registry "x" = none ∧
        fx.invoked = true ∧
        (HookSpec.rejects = HookSpec.rejects → fx.logged = true) ∧
        (HookSpec.rejects = HookSpec.throwsSync → fx.logged = false ∧ fx.unhandled = true) :=
  hook_failures_isolated "x" (by decide) HookSpec.rejects HookSpec.rejects cacheInit (by decide)

/-!  Computation lemmas for one mount / unmount step of `useGet`. -/

theorem bind_of_absent (s : String) (hs : s ≠ "") (f : FactorySpec) (st : BindState)
    (hreg : alGet st.cache.registry s = none) :
    ConsumerBinding.bind (JsVal.jsStr s) f st =
      .ok ⟨⟨alSet st.cache.registry s ⟨st.cache.nextId, f.onInit, f.onClose⟩,
            st.cache.nextId + 1⟩,
           alSet st.refCounts s (((alGet st.refCounts s).getD 0) + 1)⟩ := by
  simp [ConsumerBinding.bind, GetRxCache.existsTag, GetRxCache.put, makeKey_str hs, hreg]

theorem bind_of_present (s : String) (hs : s ≠ "") (f : FactorySpec) (st : BindState)
    (c : Controller) (hreg : alGet st.cache.registry s = some c) :
    ConsumerBinding.bind (JsVal.jsStr s) f st =
      .ok ⟨st.cache, alSet st.refCounts s (((alGet st.refCounts s).getD 0) + 1)⟩ := by
  simp [ConsumerBinding.bind, GetRxCache.existsTag, GetRxCache.find, makeKey_str hs, hreg]

theorem release_drop_persist (s : String) (hs : s ≠ "") (st : BindState)
    (hcur : ((alGet st.refCounts s).getD 1) - 1 ≤ 0) :
    ConsumerBinding.release (JsVal.jsStr s) true st = .ok ⟨st.cache, alDelete st.refCounts s⟩ := by
  simp [ConsumerBinding.release, makeKey_str hs, hcur]

theorem release_drop_evict (s : String) (hs : s ≠ "") (st : BindState) (c : Controller)
    (hcur : ((alGet st.refCounts s).getD 1) - 1 ≤ 0)
    (hreg : alGet st.cache.registry s = some c) :
    ConsumerBinding.release (JsVal.jsStr s) false st =
      .ok ⟨⟨alDelete st.cache.registry s, st.cache.nextId⟩, alDelete st.refCounts s⟩ := by
  simp [ConsumerBinding.release, GetRxCache.delete, makeKey_str hs, hcur, hreg]

theorem release_drop_evict_missing (s : String) (hs : s ≠ "") (st : BindState)
    (hcur : ((alGet st.refCounts s).getD 1) - 1 ≤ 0)
    (hreg : alGet st.cache.registry s = none) :
    ConsumerBinding.release (JsVal.jsStr s) false st = .ok ⟨st.cache, alDelete st.refCounts s⟩ := by
  simp [ConsumerBinding.release, GetRxCache.delete, makeKey_str hs, hcur, hreg]

theorem release_keep (s : String) (hs : s ≠ "") (st : BindState) (persist : Bool)
    (hcur : ¬ ((alGet st.refCounts s).getD 1) - 1 ≤ 0) :
    ConsumerBinding.release (JsVal.jsStr s) persist st =
      .ok ⟨st.cache, alSet st.refCounts s (((alGet st.refCounts s).getD 1) - 1)⟩ := by
  simp [ConsumerBinding.release, makeKey_str hs, hcur]

/-!
Reachable-state invariants of the hook layer on one key, starting from the
fresh module state.  `InvMix` holds for arbitrary persist flags: the
counter, when present, is at least 1, and a positive counter implies the
entry is cached.  `InvNP` is the stronger shape for all-non-persistent
histories: counter present if and only if entry present.
-/

/-- Shape of reachable states for histories using any persist flags. -/
def InvMix (s : String) (st : BindState) : Prop :=
  (st.refCounts = [] ∨ ∃ n : Int, 1 ≤ n ∧ st.refCounts = [(s, n)]) ∧
  (st.cache.registry = [] ∨ ∃ c : Controller, st.cache.registry = [(s, c)]) ∧
  (st.refCounts ≠ [] → (alGet st.cache.registry s).isSome = true)

/-- Shape of reachable states for all-non-persistent histories. -/
def InvNP (s : String) (st : BindState) : Prop :=
  (st.refCounts = [] ∧ st.cache.registry = []) ∨
  (∃ n : Int, 1 ≤ n ∧ st.refCounts = [(s, n)] ∧
    ∃ c : Controller, st.cache.registry = [(s, c)])

theorem step_invNP (s : String) (hs : s ≠ "") (f : FactorySpec) (st : BindState) (op : BOp)
    (hop : op = BOp.bindOp ∨ op = BOp.releaseOp false) (hinv : InvNP s st) :
    ∃ st1, stepOp (JsVal.jsStr s) f op st = .ok st1 ∧ InvNP s st1 := by
  rcases hop with hop | hop <;> subst hop <;> rw [stepOp]
  · rcases hinv with ⟨hrc, hreg⟩ | ⟨n, hn, hrc, c, hreg⟩
    · refine ⟨_, bind_of_absent s hs f st (by rw [hreg]; rfl), ?_⟩
      right
      rw [hrc, hreg]
      exact ⟨1, by norm_num, by simp [alGet, alSet],
             ⟨st.cache.nextId, f.onInit, f.onClose⟩, by simp [alSet]⟩
    · refine ⟨_, bind_of_present s hs f st c (by rw [hreg]; simp [alGet]), ?_⟩
      right
      rw [hrc]
      exact ⟨n + 1, by omega, by simp [alGet, alSet], c, hreg⟩
  · rcases hinv with ⟨hrc, hreg⟩ | ⟨n, hn, hrc, c, hreg⟩
    · refine ⟨_, release_drop_evict_missing s hs st (by rw [hrc]; simp [alGet])
        (by rw [hreg]; rfl), ?_⟩
      left
      rw [hrc]
      exact ⟨by simp [alDelete], hreg⟩
    · by_cases hone : n = 1
      · subst hone
        refine ⟨_, release_drop_evict s hs st c (by rw [hrc]; simp [alGet])
          (by rw [hreg]; simp [alGet]), ?_⟩
        left
        rw [hrc, hreg]
        exact ⟨by simp [alDelete], by simp [alDelete]⟩
      · refine ⟨_, release_keep s hs st false (by rw [hrc]; simp [alGet]; omega), ?_⟩
        right
        rw [hrc]
        refine ⟨n - 1, by omega, by simp [alGet, alSet], c, hreg⟩

theorem runOps_invNP (s : String) (hs : s ≠ "") (f : FactorySpec) (t : List BOp) :
    ∀ st st' : BindState,
      (∀ op ∈ t, op = BOp.bindOp ∨ op = BOp.releaseOp false) →
      InvNP s st → runOps (JsVal.jsStr s) f t st = .ok st' → InvNP s st' := by
  induction t with
  | nil =>
    intro st st' _ hinv hrun
    simp [runOps] at hrun
    rwa [← hrun]
  | cons op rest ih =>
    intro st st' hall hinv hrun
    obtain ⟨st1, hstep, hinv1⟩ := step_invNP s hs f st op (hall op (by simp)) hinv
    simp only [runOps, hstep] at hrun
    exact ih st1 st' (fun o ho => hall o (by simp [ho])) hinv1 hrun

/-!  C2 — paired bind / release with `persist = false`. -/

/-- C2: from the fresh module state, after any sequence of mounts and
non-persistent unmounts on one valid key, the entry exists in the registry
exactly while the live-reference count is at least 1: a positive count
implies `exists` is true, and a count of zero (in particular, after the
final release of a paired history) implies `exists` is false. -/
theorem bind_release_exists_iff_count (s : String) (hs : s ≠ "") (f : FactorySpec)
    (t : List BOp) (st : BindState)
    (hall : ∀ op ∈ t, op = BOp.bindOp ∨ op = BOp.releaseOp false)
    (hrun : runOps (JsVal.jsStr s) f t bindInit = .ok st) :
    (1 ≤ liveCount st s → GetRxCache.existsTag (JsVal.jsStr s) st.cache = .ok true) ∧
    (liveCount st s = 0 → GetRxCache.existsTag (JsVal.jsStr s) st.cache = .ok false) := by
  have hinv := runOps_invNP s hs f t bindInit st hall (Or.inl ⟨rfl, rfl⟩) hrun
  rcases hinv with ⟨hrc, hreg⟩ | ⟨n, hn, hrc, c, hreg⟩
  · constructor
    · intro h1
      rw [liveCount, hrc] at h1
      simp [alGet] at h1
    · intro _
      simp [GetRxCache.existsTag, makeKey_str hs, hreg, alGet]
  · constructor
    · intro _
      simp [GetRxCache.existsTag, makeKey_str hs, hreg, alGet]
    · intro h0
      rw [liveCount, hrc] at h0
      simp [alGet] at h0
      omega

/-- Witness for C2: the spec's scenario at key `"x"` — two mounts and one
non-persistent unmount leave the entry present (count 1); the second
non-persistent unmount (count 0) leaves `exists` false. -/
theorem bind_release_exists_iff_count_witness :
    GetRxCache.existsTag (JsVal.jsStr "x")
      (⟨⟨[("x", ⟨0, none, none⟩)], 1⟩, [("x", 1)]⟩ : BindState).cache = .ok true ∧
    GetRxCache.existsTag (JsVal.jsStr "x") (⟨⟨[], 1⟩, []⟩ : BindState).cache = .ok false := by
  constructor
  · exact (bind_release_exists_iff_count "x" (by decide) ⟨none, none⟩
      [BOp.bindOp, BOp.bindOp, BOp.releaseOp false]
      ⟨⟨[("x", ⟨0, none, none⟩)], 1⟩, [("x", 1)]⟩ (by decide) (by decide)).1 (by decide)
  · exact (bind_release_exists_iff_count "x" (by decide) ⟨none, none⟩
      [BOp.bindOp, BOp.bindOp, BOp.releaseOp false, BOp.releaseOp false]
      ⟨⟨[], 1⟩, []⟩ (by decide) (by decide)).2 (by decide)

/-!  C3 — persistence. -/

theorem step_invMix (s : String) (hs : s ≠ "") (f : FactorySpec) (st : BindState) (op : BOp)
    (hinv : InvMix s st) :
    ∃ st1, stepOp (JsVal.jsStr s) f op st = .ok st1 ∧ InvMix s st1 := by
  obtain ⟨hrcShape, hregShape, hlink⟩ := hinv
  cases op with
  | bindOp =>
    rw [stepOp]
    rcases hregShape with hreg | ⟨c, hreg⟩
    · refine ⟨_, bind_of_absent s hs f st (by rw [hreg]; rfl), ?_⟩
      refine ⟨?_, ?_, ?_⟩
      · rcases hrcShape with hrc | ⟨n, hn, hrc⟩
        · right; rw [hrc]; exact ⟨1, by norm_num, by simp [alGet, alSet]⟩
        · right; rw [hrc]; exact ⟨n + 1, by omega, by simp [alGet, alSet]⟩
      · right; rw [hreg]; exact ⟨⟨st.cache.nextId, f.onInit, f.onClose⟩, by simp [alSet]⟩
      · intro _; rw [hreg]; simp [alSet, alGet]
    · refine ⟨_, bind_of_present s hs f st c (by rw [hreg]; simp [alGet]), ?_⟩
      refine ⟨?_, Or.inr ⟨c, hreg⟩, ?_⟩
      · rcases hrcShape with hrc | ⟨n, hn, hrc⟩
        · right; rw [hrc]; exact ⟨1, by norm_num, by simp [alGet, alSet]⟩
        · right; rw [hrc]; exact ⟨n + 1, by omega, by simp [alGet, alSet]⟩
      · intro _; rw [hreg]; simp [alGet]
  | releaseOp p =>
    rw [stepOp]
    have hdropInv : ∀ st1 : BindState, st1.cache = st.cache ∨ st1.cache.registry = [] →
        st1.refCounts = alDelete st.refCounts s → InvMix s st1 := by
      intro st1 hc hrc1
      have hrcEmpty : st1.refCounts = [] := by
        rcases hrcShape with hrc | ⟨n, _, hrc⟩ <;> rw [hrc1, hrc] <;> simp [alDelete]
      refine ⟨Or.inl hrcEmpty, ?_, fun hne => absurd hrcEmpty hne⟩
      rcases hc with hc | hc
      · rw [hc]; exact hregShape
      · exact Or.inl hc
    by_cases hlow : ((alGet st.refCounts s).getD 1) - 1 ≤ 0
    · cases p with
      | true =>
        exact ⟨_, release_drop_persist s hs st hlow,
               hdropInv _ (Or.inl rfl) rfl⟩
      | false =>
        rcases hregShape with hreg | ⟨c, hreg⟩
        · exact ⟨_, release_drop_evict_missing s hs st hlow (by rw [hreg]; rfl),
                 hdropInv _ (Or.inl rfl) rfl⟩
        · refine ⟨_, release_drop_evict s hs st c hlow (by rw [hreg]; simp [alGet]), ?_⟩
          exact hdropInv _ (Or.inr (by rw [hreg]; simp [alDelete])) rfl
    · refine ⟨_, release_keep s hs st p hlow, ?_⟩
      have hne : st.refCounts ≠ [] := by
        intro hrc
        rw [hrc] at hlow
        simp [alGet] at hlow
      rcases hrcShape with hrc | ⟨n, hn, hrc⟩
      · exact absurd hrc hne
      · refine ⟨?_, hregShape, ?_⟩
        · right
          rw [hrc] at hlow ⊢
          simp [alGet] at hlow
          exact ⟨n - 1, by omega, by simp [alGet, alSet]⟩
        · intro _
          exact hlink hne

theorem runOps_invMix (s : String) (hs : s ≠ "") (f : FactorySpec) (t : List BOp) :
    ∀ st st' : BindState,
      InvMix s st → runOps (JsVal.jsStr s) f t st = .ok st' → InvMix s st' := by
  induction t with
  | nil =>
    intro st st' hinv hrun
    simp [runOps] at hrun
    rwa [← hrun]
  | cons op rest ih =>
    intro st st' hinv hrun
    obtain ⟨st1, hstep, hinv1⟩ := step_invMix s hs f st op hinv
    simp only [runOps, hstep] at hrun
    exact ih st1 st' hinv1 hrun

/-- C3 counterexample: key `"x"`, two components mount; the one that
declared `persist: true` unmounts first (count 2 → 1, its flag unused),
then the non-persistent one unmounts (count 1 → 0) — its own flag decides,
so the entry is evicted.  A binding in this history declared persistence,
all counts reached zero, no explicit `delete` was issued, and yet
`exists("x")` is false — contradicting the claim that the entry remains
until an explicit delete whenever some active binding was persistent. -/
theorem persistent_binding_still_evicted_cex :
    runOps (JsVal.jsStr "x") ⟨none, none⟩
        [BOp.bindOp, BOp.bindOp, BOp.releaseOp true, BOp.releaseOp false] bindInit =
      .ok ⟨⟨[], 1⟩, []⟩ ∧
    GetRxCache.existsTag (JsVal.jsStr "x") ⟨[], 1⟩ = .ok false := by decide

/-- C3 as amended: eviction-on-zero is governed by the flag of the release
that brings the count to zero.  From any reachable state with live count
1, a release by a binding that declared `persist: true` drops the count to
zero yet leaves the entry in the registry, and it is removed only by an
explicit `delete`. -/
theorem release_persist_skips_eviction (s : String) (hs : s ≠ "") (f : FactorySpec)
    (t : List BOp) (st : BindState)
    (hrun : runOps (JsVal.jsStr s) f t bindInit = .ok st)
    (hone : liveCount st s = 1) :
    ∃ st1 : BindState,
      ConsumerBinding.release (JsVal.jsStr s) true st = .ok st1 ∧
      GetRxCache.existsTag (JsVal.jsStr s) st1.cache = .ok true ∧
      liveCount st1 s = 0 ∧
      ∃ st2 fx,
        GetRxCache.delete (JsVal.jsStr s) st1.cache = .ok (st2, fx) ∧
        GetRxCache.existsTag (JsVal.jsStr s) st2 = .ok false := by
  obtain ⟨hrcShape, hregShape, hlink⟩ :=
    runOps_invMix s hs f t bindInit st
      ⟨Or.inl rfl, Or.inl rfl, fun h => absurd rfl h⟩ hrun
  rcases hrcShape with hrc | ⟨n, hn, hrc⟩
  · rw [liveCount, hrc] at hone
    simp [alGet] at hone
  · have hn1 : n = 1 := by
      rw [liveCount, hrc] at hone
      simpa [alGet] using hone
    subst hn1
    have hsome := hlink (by rw [hrc]; simp)
    rcases hregShape with hreg | ⟨c, hreg⟩
    · rw [hreg] at hsome
      simp [alGet] at hsome
    · refine ⟨⟨st.cache, alDelete st.refCounts s⟩,
        release_drop_persist s hs st (by rw [hrc]; simp [alGet]), ?_, ?_, ?_⟩
      · simp [GetRxCache.existsTag, makeKey_str hs, hreg, alGet]
      · rw [liveCount, hrc]
        simp [alDelete, alGet]
      · refine ⟨⟨alDelete st.cache.registry s, st.cache.nextId⟩, callMaybeAsync c.onClose,
          ?_, ?_⟩
        · simp [GetRxCache.delete, makeKey_str hs, hreg, alGet]
        · rw [hreg]
          simp [GetRxCache.existsTag, makeKey_str hs, alDelete, alGet]

/-- Witness for the amended C3: one mount of `"x"`, then a persistent
unmount — the entry survives at count zero and an explicit delete evicts
it. -/
theorem release_persist_skips_eviction_witness :
    ∃ st1 : BindState,
      ConsumerBinding.release (JsVal.jsStr "x") true
          ⟨⟨[("x", ⟨0, none, none⟩)], 1⟩, [("x", 1)]⟩ = .ok st1 ∧
      GetRxCache.existsTag (JsVal.jsStr "x") st1.cache = .ok true ∧
      liveCount st1 "x" = 0 ∧
      ∃ st2 fx,
        GetRxCache.delete (JsVal.jsStr "x") st1.cache = .ok (st2, fx) ∧
        GetRxCache.existsTag (JsVal.jsStr "x") st2 = .ok false :=
  release_persist_skips_eviction "x" (by decide) ⟨none, none⟩ [BOp.bindOp]
    ⟨⟨[("x", ⟨0, none, none⟩)], 1⟩, [("x", 1)]⟩ (by decide) (by decide)

/-!  List lemmas for the array-object heap. -/

theorem getD_oob {α : Type} (l : List α) (i : Nat) (d : α) (h : l.length ≤ i) :
    l.getD i d = d := by
  induction l generalizing i with
  | nil => simp [List.getD]
  | cons a as ih =>
    cases i with
    | zero => simp at h
    | succ j =>
      simp only [List.getD_cons_succ]
      exact ih j (by simpa using h)

theorem getD_append_left {α : Type} (l l2 : List α) (i : Nat) (d : α) (h : i < l.length) :
    (l ++ l2).getD i d = l.getD i d := by
  induction l generalizing i with
  | nil => simp at h
  | cons a as ih =>
    cases i with
    | zero => simp
    | succ j =>
      simp only [List.cons_append, List.getD_cons_succ]
      exact ih j (by simpa using h)

theorem getD_set_self {α : Type} (l : List α) (i : Nat) (x d : α) (h : i < l.length) :
    (l.set i x).getD i d = x := by
  induction l generalizing i with
  | nil => simp at h
  | cons a as ih =>
    cases i with
    | zero => simp [List.set]
    | succ j =>
      simp only [List.set, List.getD_cons_succ]
      exact ih j (by simpa using h)

theorem getD_set_ne {α : Type} (l : List α) (i j : Nat) (x d : α) (h : i ≠ j) :
    (l.set i x).getD j d = l.getD j d := by
  induction l generalizing i j with
  | nil => simp [List.set]
  | cons a as ih =>
    cases i with
    | zero =>
      cases j with
      | zero => exact absurd rfl h
      | succ k => simp [List.set, List.getD_cons_succ]
    | succ i2 =>
      cases j with
      | zero => simp [List.set, List.getD_cons_zero]
      | succ k =>
        simp only [List.set, List.getD_cons_succ]
        exact ih i2 k (by omega)

theorem drop_take_getD {α : Type} (l : List α) (i fuel : Nat) (d : α) (h : i < l.length) :
    (l.drop i).take (fuel + 1) = l.getD i d :: (l.drop (i + 1)).take fuel := by
  induction l generalizing i with
  | nil => simp at h
  | cons a as ih =>
    cases i with
    | zero => simp
    | succ j =>
      simp only [List.drop_succ_cons, List.getD_cons_succ]
      exact ih j (by simpa using h)

/-!
The broadcast-snapshot argument.  During a broadcast that iterates over
array object `A`, every mid-broadcast `on` / `off` leaves the listeners
that were in `A` at broadcast start as a prefix of `A`'s contents: `on`
only appends (to `A` itself or to another object), and `off` never touches
`A` — it allocates a new object and redirects the field.
-/

theorem applyAction_keeps_snap {L V : Type} [DecidableEq L] (snap : List L) (A : Nat)
    (st : ObsState L V) (a : Obs.BAction L)
    (h : ∃ t, heapGet st.arrays A = snap ++ t) :
    ∃ t, heapGet (Obs.applyAction st a).arrays A = snap ++ t := by
  obtain ⟨t, ht⟩ := h
  cases a with
  | actOn l =>
    show ∃ t2, heapGet (st.arrays.set st.hRef (handlersOf st ++ [l])) A = snap ++ t2
    by_cases hA : st.hRef = A
    · subst hA
      by_cases hlen : st.hRef < st.arrays.length
      · refine ⟨t ++ [l], ?_⟩
        rw [heapGet, getD_set_self _ _ _ _ hlen, handlersOf, ht, List.append_assoc]
      · refine ⟨t, ?_⟩
        rw [heapGet, getD_oob _ _ _ (by simp; omega)]
        rw [heapGet, getD_oob _ _ _ (by omega)] at ht
        exact ht
    · refine ⟨t, ?_⟩
      rw [heapGet, getD_set_ne _ _ _ _ _ hA]
      exact ht
  | actOff l =>
    show ∃ t2,
      heapGet (st.arrays ++ [(handlersOf st).filter fun x => decide (x ≠ l)]) A = snap ++ t2
    by_cases hA : A < st.arrays.length
    · refine ⟨t, ?_⟩
      rw [heapGet, getD_append_left _ _ _ _ hA]
      exact ht
    · have hnil : heapGet st.arrays A = [] := by
        rw [heapGet]
        exact getD_oob _ _ _ (by omega)
      rw [hnil] at ht
      obtain ⟨hsnap, -⟩ := List.append_eq_nil.mp ht.symm
      subst hsnap
      exact ⟨_, rfl⟩

theorem applyActions_keeps_snap {L V : Type} [DecidableEq L] (snap : List L) (A : Nat)
    (acts : List (Obs.BAction L)) :
    ∀ st : ObsState L V,
      (∃ t, heapGet st.arrays A = snap ++ t) →
      ∃ t, heapGet (Obs.applyActions acts st).arrays A = snap ++ t := by
  induction acts with
  | nil =>
    intro st h
    simpa [Obs.applyActions] using h
  | cons a rest ih =>
    intro st h
    have h1 := applyAction_keeps_snap snap A st a h
    simpa [Obs.applyActions] using ih (Obs.applyAction st a) h1

theorem broadcastLoop_invoked {L V : Type} [DecidableEq L] [Inhabited L]
    (react : L → List (Obs.BAction L)) (A : Nat) (snap : List L) :
    ∀ (fuel i : Nat) (st : ObsState L V),
      (∃ t, heapGet st.arrays A = snap ++ t) → i + fuel ≤ snap.length →
      (Obs.broadcastLoop react A fuel i st).2 = (snap.drop i).take fuel := by
  intro fuel
  induction fuel with
  | zero =>
    intro i st _ _
    simp [Obs.broadcastLoop]
  | succ fuel ih =>
    intro i st h hle
    obtain ⟨t, ht⟩ := h
    have hi : i < snap.length := by omega
    have helem : (heapGet st.arrays A).getD i default = snap.getD i default := by
      rw [ht]
      exact getD_append_left _ _ _ _ hi
    simp only [Obs.broadcastLoop]
    rw [helem]
    rw [ih (i + 1) _ (applyActions_keeps_snap snap A _ st ⟨t, ht⟩) (by omega)]
    exact (drop_take_getD snap i fuel default hi).symm

/-- The broadcast of `set` invokes exactly the listener list the
`eventHandlers` field designated when the broadcast began, whatever the
invoked listeners subscribe or unsubscribe meanwhile. -/
theorem set_invoked {L V : Type} [DecidableEq L] [Inhabited L]
    (v : JsV V) (react : L → List (Obs.BAction L)) (st : ObsState L V) :
    (Obs.set v react st).2 = handlersOf st := by
  have h := broadcastLoop_invoked react st.hRef (handlersOf st) (handlersOf st).length 0
      ({ st with current := v }) ⟨[], by simp [handlersOf, heapGet]⟩ (by omega)
  simpa [Obs.set, handlersOf, heapGet] using h

/-!  State-shape lemmas for broadcasts. -/

theorem applyAction_current {L V : Type} [DecidableEq L] (st : ObsState L V)
    (a : Obs.BAction L) : (Obs.applyAction st a).current = st.current := by
  cases a <;> rfl

theorem applyActions_current {L V : Type} [DecidableEq L] (acts : List (Obs.BAction L)) :
    ∀ st : ObsState L V, (Obs.applyActions acts st).current = st.current := by
  induction acts with
  | nil => intro st; rfl
  | cons a rest ih =>
    intro st
    have h1 := applyAction_current st a
    simpa [Obs.applyActions, h1] using ih (Obs.applyAction st a)

theorem broadcastLoop_current {L V : Type} [DecidableEq L] [Inhabited L]
    (react : L → List (Obs.BAction L)) (A : Nat) :
    ∀ (fuel i : Nat) (st : ObsState L V),
      (Obs.broadcastLoop react A fuel i st).1.current = st.current := by
  intro fuel
  induction fuel with
  | zero => intro i st; rfl
  | succ fuel ih =>
    intro i st
    simp only [Obs.broadcastLoop]
    rw [ih]
    exact applyActions_current _ _

/-- After `set v`, the stored current value is `v`, whatever the invoked
listeners subscribed or unsubscribed. -/
theorem set_current {L V : Type} [DecidableEq L] [Inhabited L]
    (v : JsV V) (react : L → List (Obs.BAction L)) (st : ObsState L V) :
    (Obs.set v react st).1.current = v := by
  simp only [Obs.set]
  rw [broadcastLoop_current]

theorem broadcastLoop_noReact_state {L V : Type} [DecidableEq L] [Inhabited L] (A : Nat) :
    ∀ (fuel i : Nat) (st : ObsState L V),
      (Obs.broadcastLoop (noReact : L → List (Obs.BAction L)) A fuel i st).1 = st := by
  intro fuel
  induction fuel with
  | zero => intro i st; rfl
  | succ fuel ih =>
    intro i st
    simp only [Obs.broadcastLoop]
    exact ih (i + 1) st

/-- With no reentrant subscription changes, `set` only replaces the
current value. -/
theorem set_noReact_state {L V : Type} [DecidableEq L] [Inhabited L]
    (v : JsV V) (st : ObsState L V) :
    (Obs.set v (noReact : L → List (Obs.BAction L)) st).1 = { st with current := v } := by
  simp only [Obs.set]
  exact broadcastLoop_noReact_state _ _ _ _

theorem filter_eq_of_count_one {L : Type} [DecidableEq L] :
    ∀ (xs : List L) (l : L), xs.count l = 1 →
      xs.filter (fun x => decide (x = l)) = [l] := by
  intro xs
  induction xs with
  | nil => intro l h; simp at h
  | cons a as ih =>
    intro l h
    by_cases ha : a = l
    · subst ha
      have h0 : as.count a = 0 := by
        simp [List.count_cons] at h
        exact h
      have hfil : as.filter (fun x => decide (x = a)) = [] := by
        rw [List.filter_eq_nil_iff]
        intro x hx
        simp only [decide_eq_true_eq]
        intro hxa
        subst hxa
        exact absurd hx (List.count_eq_zero.mp h0)
      simp [List.filter_cons, hfil]
    · have h1 : as.count l = 1 := by
        simpa [List.count_cons, ha] using h
      simp [List.filter_cons, ha, ih l h1]

/-!  C5 — snapshot semantics of a broadcast. -/

/-- C5: the set of callbacks a single `set` broadcast invokes — order and
multiplicity included — is exactly the listener list registered when the
broadcast began, for every combination of `on` / `off` calls the invoked
callbacks perform during the broadcast: a callback subscribed mid-broadcast
is not invoked by that broadcast (it lands beyond the `forEach` range or on
a replaced array object), and a callback unsubscribed mid-broadcast is
still invoked (it stays in the array object being iterated, because `off`
replaces the field rather than mutating the old array). -/
theorem broadcast_invokes_snapshot {L V : Type} [DecidableEq L] [Inhabited L]
    (st : ObsState L V) (react : L → List (Obs.BAction L)) (v : JsV V) :
    (Obs.set v react st).2 = handlersOf st :=
  set_invoked v react st

/-!  C6 — ordered synchronous delivery of successive writes. -/

/-- C6: each `set` delivers the written value to every currently-registered
subscriber, in subscription order (the invoked list is the handler list
itself), synchronously as part of `set`; hence a subscriber registered once
before two writes receives exactly the call with `v1` and then the call
with `v2`, and no other values. -/
theorem subscriber_receives_writes_in_order {L V : Type} [DecidableEq L] [Inhabited L]
    (st : ObsState L V) (l : L) (v1 v2 : V)
    (hone : (handlersOf st).count l = 1) :
    (Obs.set (JsV.val v1) noReact st).2 = handlersOf st ∧
    (Obs.set (JsV.val v2) noReact (Obs.set (JsV.val v1) noReact st).1).2 = handlersOf st ∧
    deliveredTo l ((Obs.set (JsV.val v1) noReact st).2) v1 ++
      deliveredTo l ((Obs.set (JsV.val v2) noReact (Obs.set (JsV.val v1) noReact st).1).2) v2
      = [v1, v2] := by
  have h1 : (Obs.set (JsV.val v1) noReact st).2 = handlersOf st := set_invoked _ _ _
  have h2 : (Obs.set (JsV.val v2) noReact (Obs.set (JsV.val v1) noReact st).1).2
      = handlersOf st := by
    rw [set_noReact_state]
    exact set_invoked _ _ _
  refine ⟨h1, h2, ?_⟩
  rw [h1, h2]
  simp [deliveredTo, filter_eq_of_count_one _ _ hone]

/-- Witness for C6: one listener (id 7) subscribed to a cell with no other
subscribers; writes of 1 then 2 deliver `[1, 2]` to it. -/
theorem subscriber_receives_writes_in_order_witness :
    (Obs.set (JsV.val 1) noReact (⟨[[7]], 0, JsV.undef⟩ : ObsState Nat Nat)).2 =
      handlersOf (⟨[[7]], 0, JsV.undef⟩ : ObsState Nat Nat) ∧
    (Obs.set (JsV.val 2) noReact
        (Obs.set (JsV.val 1) noReact (⟨[[7]], 0, JsV.undef⟩ : ObsState Nat Nat)).1).2 =
      handlersOf (⟨[[7]], 0, JsV.undef⟩ : ObsState Nat Nat) ∧
    deliveredTo 7
        ((Obs.set (JsV.val 1) noReact (⟨[[7]], 0, JsV.undef⟩ : ObsState Nat Nat)).2) 1 ++
      deliveredTo 7
        ((Obs.set (JsV.val 2) noReact
          (Obs.set (JsV.val 1) noReact (⟨[[7]], 0, JsV.undef⟩ : ObsState Nat Nat)).1).2) 2
      = [1, 2] :=
  subscriber_receives_writes_in_order ⟨[[7]], 0, JsV.undef⟩ 7 1 2 (by decide)

/-!  C7 — replay on subscribe. -/

/-- C7: `on` appends the callback to the subscriber list; when a current
value is present it invokes the callback exactly once with that value
before returning, and when the cell holds no value it invokes nothing;
a later write then reaches the new subscriber (it is in the snapshot of
the next broadcast). -/
theorem replay_on_subscribe {L V : Type} [DecidableEq L] [Inhabited L]
    (st : ObsState L V) (l : L) (u : V) (hw : st.hRef < st.arrays.length) :
    (∀ v : V, st.current = JsV.val v → (Obs.onSub l st).2 = [(l, JsV.val v)]) ∧
    (st.current = JsV.undef → (Obs.onSub l st).2 = []) ∧
    handlersOf (Obs.onSub l st).1 = handlersOf st ++ [l] ∧
    (Obs.set (JsV.val u) noReact (Obs.onSub l st).1).2 = handlersOf st ++ [l] := by
  have hh : handlersOf (Obs.onSub l st).1 = handlersOf st ++ [l] := by
    show heapGet (st.arrays.set st.hRef (handlersOf st ++ [l])) st.hRef
      = handlersOf st ++ [l]
    rw [heapGet]
    exact getD_set_self _ _ _ _ hw
  refine ⟨?_, ?_, hh, ?_⟩
  · intro v hv
    simp [Obs.onSub, hv]
  · intro hv
    simp [Obs.onSub, hv]
  · rw [set_invoked]
    exact hh

/-- Witness for C7: subscribing listener 3 to a cell holding 5 replays
`(3, 5)` once; a later write of 9 reaches it. -/
theorem replay_on_subscribe_witness :
    ((∀ v : Nat, (⟨[[]], 0, JsV.val 5⟩ : ObsState Nat Nat).current = JsV.val v →
        (Obs.onSub 3 (⟨[[]], 0, JsV.val 5⟩ : ObsState Nat Nat)).2 = [(3, JsV.val v)]) ∧
      ((⟨[[]], 0, JsV.val 5⟩ : ObsState Nat Nat).current = JsV.undef →
        (Obs.onSub 3 (⟨[[]], 0, JsV.val 5⟩ : ObsState Nat Nat)).2 = []) ∧
      handlersOf (Obs.onSub 3 (⟨[[]], 0, JsV.val 5⟩ : ObsState Nat Nat)).1 =
        handlersOf (⟨[[]], 0, JsV.val 5⟩ : ObsState Nat Nat) ++ [3] ∧
      (Obs.set (JsV.val 9) noReact
          (Obs.onSub 3 (⟨[[]], 0, JsV.val 5⟩ : ObsState Nat Nat)).1).2 =
        handlersOf (⟨[[]], 0, JsV.val 5⟩ : ObsState Nat Nat) ++ [3]) :=
  replay_on_subscribe ⟨[[]], 0, JsV.val 5⟩ 3 9 (by decide)

/-!  C10 — an explicitly-written `undefined` suppresses replay. -/

/-- C10: replay on subscribe happens exactly when the stored current value
is not `undefined`; in particular, after a `set` of `undefined` on a cell
whose value type admits `undefined` (whatever the subscribers did during
that broadcast), a newly subscribing callback receives no immediate replay
— so at the subscribe interface an explicitly written `undefined` is
indistinguishable from a value never having been set. -/
theorem undefined_write_no_replay {L V : Type} [DecidableEq L] [Inhabited L]
    (st : ObsState L V) (react : L → List (Obs.BAction L)) (l : L) :
    (Obs.onSub l (Obs.set JsV.undef react st).1).2 = [] ∧
    (∀ st2 : ObsState L V, ((Obs.onSub l st2).2 = [] ↔ st2.current = JsV.undef)) := by
  have hcur : (Obs.set (JsV.undef : JsV V) react st).1.current = JsV.undef :=
    set_current _ _ _
  constructor
  · simp [Obs.onSub, hcur]
  · intro st2
    cases h2 : st2.current with
    | undef => simp [Obs.onSub, h2]
    | val v => simp [Obs.onSub, h2]
